import Mathlib

/-!
Verification of the reconciliation decision engine of `obscli`
(`cmd/reconcile.go`, `cmd/root.go`).

The data model follows the fields the Go code reads: a project has a name,
title, description, URL, an ordered list of persons and an ordered list of
repositories; a person is a `(UserID, Role)` binding; a repository is a name
plus an ordered list of architecture strings.  The remote representation
(`obs.Project`) exposes the same compared fields, so local and remote states
share one Lean type.
-/

set_option autoImplicit false
set_option linter.dupNamespace false
set_option linter.unusedVariables false

namespace Obscli

/-- One `(account, permission-role)` binding (`obs.Person`, the fields read by
`comparePersons`). -/
structure Person where
  UserID : String
  Role : String
deriving DecidableEq, Repr

/-- A named build target and the CPU architectures it builds for
(`obs.Repository`, the fields read by `compareRepositories`). -/
structure Repository where
  Repository : String
  Architectures : List String
deriving DecidableEq, Repr

/-- A build-service project: the fields of `types.Project` / `obs.Project`
read by `compareProjects`. -/
structure Project where
  Name : String
  Title : String
  Description : String
  URL : String
  Persons : List Person
  Repositories : List Repository
deriving DecidableEq, Repr

/-- `compareArchitectures` from `cmd/reconcile.go`: length check, then an
indexed loop over both lists that returns `false` at the first pair of
unequal strings. -/
def compareArchitectures (localArchs remoteArchs : List String) : Bool :=
  if localArchs.length ≠ remoteArchs.length then
    false
  else
    (localArchs.zip remoteArchs).all fun a => a.1 == a.2

/-- `comparePersons` from `cmd/reconcile.go`: length check, then an indexed
loop returning `false` at the first index where `UserID` or `Role` differ. -/
def comparePersons (localPersons remotePersons : List Person) : Bool :=
  if localPersons.length ≠ remotePersons.length then
    false
  else
    (localPersons.zip remotePersons).all fun p =>
      p.1.UserID == p.2.UserID && p.1.Role == p.2.Role

/-- `compareRepositories` from `cmd/reconcile.go`: length check, then an
indexed loop returning `false` at the first index where the repository names
differ or `compareArchitectures` fails. -/
def compareRepositories (localRepos remoteRepos : List Repository) : Bool :=
  if localRepos.length ≠ remoteRepos.length then
    false
  else
    (localRepos.zip remoteRepos).all fun r =>
      r.1.Repository == r.2.Repository &&
        compareArchitectures r.1.Architectures r.2.Architectures

/-- `compareProjects` from `cmd/reconcile.go`: returns `true` (different)
when any scalar field differs or a sub-comparison fails, else `false`. -/
def compareProjects (localPrj remotePrj : Project) : Bool :=
  if localPrj.Name ≠ remotePrj.Name ∨
      localPrj.Title ≠ remotePrj.Title ∨
      localPrj.Description ≠ remotePrj.Description ∨
      localPrj.URL ≠ remotePrj.URL ∨
      ¬ comparePersons localPrj.Persons remotePrj.Persons ∨
      ¬ compareRepositories localPrj.Repositories remotePrj.Repositories then
    true
  else
    false

/-! ### Characterization of the comparison functions

Each of the three list comparisons has the same shape: a length check
followed by a positional loop whose element check decides equality of the
compared fields.  When the element check decides full element equality, the
whole comparison decides list equality. -/

theorem zipAllCompare_eq_true_iff {α : Type} (f : α → α → Bool)
    (hf : ∀ a b, f a b = true ↔ a = b) :
    ∀ l r : List α,
      (if l.length ≠ r.length then false
       else (l.zip r).all fun p => f p.1 p.2) = true ↔ l = r := by
  intro l
  induction l with
  | nil =>
    intro r
    cases r with
    | nil => simp
    | cons q qs => simp
  | cons p ps ih =>
    intro r
    cases r with
    | nil => simp
    | cons q qs =>
      by_cases hlen : ps.length = qs.length
      · have ih' : ((ps.zip qs).all fun p => f p.1 p.2) = true ↔ ps = qs := by
          have h := ih qs
          rwa [if_neg (by simp [hlen])] at h
        rw [if_neg (by simp [hlen])]
        simp only [List.zip_cons_cons, List.all_cons, Bool.and_eq_true, hf,
          ih', List.cons.injEq]
      · rw [if_pos (by simp [hlen])]
        constructor
        · intro h; cases h
        · intro h
          injection h with h1 h2
          exact absurd (congrArg List.length h2) hlen

theorem compareArchitectures_eq_true_iff (l r : List String) :
    compareArchitectures l r = true ↔ l = r :=
  zipAllCompare_eq_true_iff (fun a b => a == b) (fun a b => by simp) l r

theorem comparePersons_eq_true_iff (l r : List Person) :
    comparePersons l r = true ↔ l = r :=
  zipAllCompare_eq_true_iff
    (fun (a b : Person) => a.UserID == b.UserID && a.Role == b.Role)
    (fun a b => by
      cases a; cases b
      simp [Person.mk.injEq, Bool.and_eq_true]) l r

theorem compareRepositories_eq_true_iff (l r : List Repository) :
    compareRepositories l r = true ↔ l = r :=
  zipAllCompare_eq_true_iff
    (fun (a b : Repository) => a.Repository == b.Repository &&
      compareArchitectures a.Architectures b.Architectures)
    (fun a b => by
      cases a; cases b
      simp [Repository.mk.injEq, Bool.and_eq_true,
        compareArchitectures_eq_true_iff]) l r

theorem compareProjects_eq_false_iff (l r : Project) :
    compareProjects l r = false ↔ l = r := by
  cases l; cases r
  simp [compareProjects, comparePersons_eq_true_iff,
    compareRepositories_eq_true_iff, Project.mk.injEq, not_or, and_assoc]

theorem person_eq_of_fields {a b : Person}
    (h1 : a.UserID = b.UserID) (h2 : a.Role = b.Role) : a = b := by
  cases a; cases b; cases h1; cases h2; rfl

theorem repository_eq_of_fields {a b : Repository}
    (h1 : a.Repository = b.Repository)
    (h2 : a.Architectures = b.Architectures) : a = b := by
  cases a; cases b; cases h1; cases h2; rfl

/-! ### The spec's wording of project equivalence

These predicates transcribe the spec's §3 invariant word for word (equal
lengths and positional equality at every index); claim C1 compares them with
the code's `compareProjects`. -/

/-- Spec wording: architecture lists of equal length, positionally equal at
every index. -/
def architecturesEquivSpec (l r : List String) : Prop :=
  l.length = r.length ∧
  ∀ (i : Nat) (h : i < l.length) (h' : i < r.length),
    l.get ⟨i, h⟩ = r.get ⟨i, h'⟩

/-- Spec wording: person lists of equal length, positionally equal on
`(user_id, role)` at every index. -/
def personsEquivSpec (l r : List Person) : Prop :=
  l.length = r.length ∧
  ∀ (i : Nat) (h : i < l.length) (h' : i < r.length),
    (l.get ⟨i, h⟩).UserID = (r.get ⟨i, h'⟩).UserID ∧
    (l.get ⟨i, h⟩).Role = (r.get ⟨i, h'⟩).Role

/-- Spec wording: repository lists of equal length, positionally equal, each
pair with equal repository names and positionally equal architecture lists. -/
def repositoriesEquivSpec (l r : List Repository) : Prop :=
  l.length = r.length ∧
  ∀ (i : Nat) (h : i < l.length) (h' : i < r.length),
    (l.get ⟨i, h⟩).Repository = (r.get ⟨i, h'⟩).Repository ∧
    architecturesEquivSpec (l.get ⟨i, h⟩).Architectures
      (r.get ⟨i, h'⟩).Architectures

/-- Spec wording of "two Projects are equivalent" (§3 invariant). -/
def projectsEquivalentSpec (l r : Project) : Prop :=
  l.Name = r.Name ∧ l.Title = r.Title ∧
  l.Description = r.Description ∧ l.URL = r.URL ∧
  personsEquivSpec l.Persons r.Persons ∧
  repositoriesEquivSpec l.Repositories r.Repositories

theorem architecturesEquivSpec_iff_eq (l r : List String) :
    architecturesEquivSpec l r ↔ l = r := by
  constructor
  · rintro ⟨hlen, hget⟩
    exact List.ext_get hlen hget
  · rintro rfl
    exact ⟨rfl, fun i h h' => rfl⟩

theorem personsEquivSpec_iff_eq (l r : List Person) :
    personsEquivSpec l r ↔ l = r := by
  constructor
  · rintro ⟨hlen, hget⟩
    refine List.ext_get hlen fun i h h' => ?_
    obtain ⟨h1, h2⟩ := hget i h h'
    exact person_eq_of_fields h1 h2
  · rintro rfl
    exact ⟨rfl, fun i h h' => ⟨rfl, rfl⟩⟩

theorem repositoriesEquivSpec_iff_eq (l r : List Repository) :
    repositoriesEquivSpec l r ↔ l = r := by
  constructor
  · rintro ⟨hlen, hget⟩
    refine List.ext_get hlen fun i h h' => ?_
    obtain ⟨h1, h2⟩ := hget i h h'
    exact repository_eq_of_fields h1
      ((architecturesEquivSpec_iff_eq _ _).mp h2)
  · rintro rfl
    refine ⟨rfl, fun i h h' => ⟨rfl, ?_⟩⟩
    exact (architecturesEquivSpec_iff_eq _ _).mpr rfl

theorem projectsEquivalentSpec_iff_eq (l r : Project) :
    projectsEquivalentSpec l r ↔ l = r := by
  cases l; cases r
  simp [projectsEquivalentSpec, personsEquivSpec_iff_eq,
    repositoriesEquivSpec_iff_eq, Project.mk.injEq, and_assoc]

/-! ### Claims about the comparison functions -/

/-- C1: `compareProjects` reports "not different" (returns `false`) if and
only if the names, titles, descriptions and URLs are exactly equal, the
person lists have equal length and are positionally equal on
`(user_id, role)` at every index, and the repository lists have equal length
and are positionally equal, each repository pair having equal repository
names and positionally equal architecture lists of equal length. -/
theorem compareProjects_not_different_iff_spec (l r : Project) :
    compareProjects l r = false ↔ projectsEquivalentSpec l r := by
  rw [compareProjects_eq_false_iff, projectsEquivalentSpec_iff_eq]

/-- C2: whenever the persons lists, the repositories lists, or the
architectures lists of some repository pair have differing lengths,
`compareProjects` returns `true` (different), regardless of prefix
overlap. -/
theorem compareProjects_length_mismatch (a b : Project)
    (h : a.Persons.length ≠ b.Persons.length ∨
         a.Repositories.length ≠ b.Repositories.length ∨
         ∃ (i : Nat) (hi : i < a.Repositories.length)
           (hi' : i < b.Repositories.length),
           (a.Repositories.get ⟨i, hi⟩).Architectures.length ≠
             (b.Repositories.get ⟨i, hi'⟩).Architectures.length) :
    compareProjects a b = true := by
  cases hc : compareProjects a b with
  | true => rfl
  | false =>
    have hab := (compareProjects_eq_false_iff a b).mp hc
    subst hab
    rcases h with h | h | ⟨i, hi, hi', hne⟩
    · exact absurd rfl h
    · exact absurd rfl h
    · exact absurd rfl hne

/-- C3: two projects that are identical except that the persons list (or the
repositories list) of one is a reordering of the other's differing at some
position compare as different (`compareProjects` returns `true`). -/
theorem compareProjects_order_sensitive (a b : Project)
    (h : (a.Name = b.Name ∧ a.Title = b.Title ∧
          a.Description = b.Description ∧ a.URL = b.URL ∧
          a.Repositories = b.Repositories ∧
          a.Persons.Perm b.Persons ∧
          ∃ (i : Nat) (hi : i < a.Persons.length) (hi' : i < b.Persons.length),
            a.Persons.get ⟨i, hi⟩ ≠ b.Persons.get ⟨i, hi'⟩) ∨
         (a.Name = b.Name ∧ a.Title = b.Title ∧
          a.Description = b.Description ∧ a.URL = b.URL ∧
          a.Persons = b.Persons ∧
          a.Repositories.Perm b.Repositories ∧
          ∃ (i : Nat) (hi : i < a.Repositories.length)
            (hi' : i < b.Repositories.length),
            a.Repositories.get ⟨i, hi⟩ ≠ b.Repositories.get ⟨i, hi'⟩)) :
    compareProjects a b = true := by
  cases hc : compareProjects a b with
  | true => rfl
  | false =>
    have hab := (compareProjects_eq_false_iff a b).mp hc
    subst hab
    rcases h with ⟨-, -, -, -, -, -, i, hi, hi', hne⟩ |
      ⟨-, -, -, -, -, -, i, hi, hi', hne⟩ <;> exact absurd rfl hne

/-- C4: comparing a project against a remote state with identical fields
yields "equivalent" (`compareProjects` returns `false`). -/
theorem compareProjects_refl (p : Project) : compareProjects p p = false :=
  (compareProjects_eq_false_iff p p).mpr rfl

/-- C9: the implemented equivalence check is symmetric:
`compareProjects a b = compareProjects b a` for all project states of the
compared shape. -/
theorem compareProjects_symm (a b : Project) :
    compareProjects a b = compareProjects b a := by
  by_cases h : a = b
  · subst h; rfl
  · have h1 : compareProjects a b = true := by
      cases hc : compareProjects a b with
      | false => exact absurd ((compareProjects_eq_false_iff a b).mp hc) h
      | true => rfl
    have h2 : compareProjects b a = true := by
      cases hc : compareProjects b a with
      | false =>
        exact absurd ((compareProjects_eq_false_iff b a).mp hc).symm h
      | true => rfl
    rw [h1, h2]

/-! ### Concrete example projects (witness inputs) -/

/-- The spec's concrete scenario 1 project. -/
def projA : Project :=
  { Name := "foo", Title := "T", Description := "D", URL := "U",
    Persons := [⟨"alice", "maintainer"⟩, ⟨"bob", "reviewer"⟩],
    Repositories := [⟨"standard", ["x86_64"]⟩] }

/-- `projA` with its two persons swapped (scenario 4). -/
def projB : Project :=
  { projA with Persons := [⟨"bob", "reviewer"⟩, ⟨"alice", "maintainer"⟩] }

/-- `projA` with only the first person: a strict prefix of `projA.Persons`. -/
def projC : Project :=
  { projA with Persons := [⟨"alice", "maintainer"⟩] }

/-- C2 witness: `projA` and `projC` differ only in persons-list length (the
shorter list is a prefix of the longer), and compare as different. -/
theorem compareProjects_length_mismatch_witness :
    compareProjects projA projC = true :=
  compareProjects_length_mismatch projA projC (Or.inl (by decide))

/-- C3 witness: local persons `[(alice, maintainer), (bob, reviewer)]` versus
the same set in swapped order yields `different = true`. -/
theorem compareProjects_order_sensitive_witness :
    compareProjects projA projB = true :=
  compareProjects_order_sensitive projA projB
    (Or.inl ⟨rfl, rfl, rfl, rfl, rfl, by decide,
      ⟨0, by decide, by decide, by decide⟩⟩)

/-! ### The reconciliation loop

`Reconcile`'s `Run` closure (`cmd/reconcile.go` lines 70-87) iterates over
the manifest projects in order.  Per project it calls
`GetProjectMetaFile` (fetch); on error it prints the error and `continue`s;
otherwise it runs `compareProjects` and, when different, calls
`CreateUpdateProject` (upsert), printing success or failure; when not
different it prints "already up-to-date".  The remote service is modelled
as two oracle functions `fetch` and `upsert`; the loop is embedded as a
function returning the per-project outcomes in iteration order together
with the trace of upsert calls.  The printed fetch/upsert error lines carry
only the error text; the `Outcome` constructors additionally record which
project's iteration produced the line. -/

/-- Terminal outcome of one project's iteration: which branch of the loop
body printed that project's line, with the error detail where one exists. -/
inductive Outcome where
  | fetchError (project : String) (detail : String)
  | updated (project : String)
  | upsertError (project : String) (detail : String)
  | upToDate (project : String)
deriving DecidableEq, Repr

/-- The project whose iteration produced this outcome. -/
def Outcome.project : Outcome → String
  | .fetchError n _ => n
  | .updated n => n
  | .upsertError n _ => n
  | .upToDate n => n

/-- One iteration of the loop body: fetch, compare, upsert when different.
Returns the outcome and the list of upsert calls the iteration performed. -/
def reconcileStep (fetch : String → Except String Project)
    (upsert : Project → Except String Unit) (prj : Project) :
    Outcome × List Project :=
  match fetch prj.Name with
  | Except.error e => (Outcome.fetchError prj.Name e, [])
  | Except.ok remotePrj =>
    if compareProjects prj remotePrj then
      match upsert prj with
      | Except.error e => (Outcome.upsertError prj.Name e, [prj])
      | Except.ok _ => (Outcome.updated prj.Name, [prj])
    else
      (Outcome.upToDate prj.Name, [])

/-- The loop over the manifest projects, in manifest order. -/
def reconcileLoop (fetch : String → Except String Project)
    (upsert : Project → Except String Unit) :
    List Project → List Outcome × List Project
  | [] => ([], [])
  | prj :: rest =>
    ((reconcileStep fetch upsert prj).1 ::
        (reconcileLoop fetch upsert rest).1,
     (reconcileStep fetch upsert prj).2 ++
        (reconcileLoop fetch upsert rest).2)

theorem reconcileStep_project (fetch : String → Except String Project)
    (upsert : Project → Except String Unit) (p : Project) :
    ((reconcileStep fetch upsert p).1).project = p.Name := by
  cases hf : fetch p.Name with
  | error e => simp [reconcileStep, hf, Outcome.project]
  | ok remotePrj =>
    by_cases hc : compareProjects p remotePrj = true
    · cases hu : upsert p with
      | error e => simp [reconcileStep, hf, hc, hu, Outcome.project]
      | ok u => simp [reconcileStep, hf, hc, hu, Outcome.project]
    · simp [reconcileStep, hf, hc, Outcome.project]

theorem reconcileLoop_outcomes_eq_map (fetch : String → Except String Project)
    (upsert : Project → Except String Unit) (prjs : List Project) :
    (reconcileLoop fetch upsert prjs).1 =
      prjs.map fun p => (reconcileStep fetch upsert p).1 := by
  induction prjs with
  | nil => rfl
  | cons p rest ih => simp [reconcileLoop, ih]

theorem reconcileLoop_append (fetch : String → Except String Project)
    (upsert : Project → Except String Unit) (xs ys : List Project) :
    reconcileLoop fetch upsert (xs ++ ys) =
      ((reconcileLoop fetch upsert xs).1 ++ (reconcileLoop fetch upsert ys).1,
       (reconcileLoop fetch upsert xs).2 ++
         (reconcileLoop fetch upsert ys).2) := by
  induction xs with
  | nil => simp [reconcileLoop]
  | cons p rest ih => simp [reconcileLoop, ih]

/-- Every project in the upsert-call trace was fetched successfully and
compared as different. -/
theorem mem_upsertCalls (fetch : String → Except String Project)
    (upsert : Project → Except String Unit) (prjs : List Project)
    (q : Project) (hq : q ∈ (reconcileLoop fetch upsert prjs).2) :
    ∃ remotePrj, fetch q.Name = Except.ok remotePrj ∧
      compareProjects q remotePrj = true := by
  induction prjs with
  | nil => simp [reconcileLoop] at hq
  | cons p rest ih =>
    rw [reconcileLoop] at hq
    rcases List.mem_append.mp hq with hq | hq
    · cases hf : fetch p.Name with
      | error e => simp [reconcileStep, hf] at hq
      | ok remotePrj =>
        by_cases hc : compareProjects p remotePrj = true
        · have hq' : q = p := by
            cases hu : upsert p with
            | error e => simpa [reconcileStep, hf, hc, hu] using hq
            | ok u => simpa [reconcileStep, hf, hc, hu] using hq
          subst hq'
          exact ⟨remotePrj, hf, hc⟩
        · simp [reconcileStep, hf, hc] at hq
    · exact ih hq

/-- C5: when a project's fetch succeeds and the remote state is equivalent
(`compareProjects` returns `false`), its iteration records the
"already up-to-date" outcome and performs no upsert call, and the project
never appears in the loop's upsert-call trace. -/
theorem reconcile_noop (fetch : String → Except String Project)
    (upsert : Project → Except String Unit) (prjs : List Project)
    (p remotePrj : Project) (hmem : p ∈ prjs)
    (hfetch : fetch p.Name = Except.ok remotePrj)
    (heq : compareProjects p remotePrj = false) :
    reconcileStep fetch upsert p = (Outcome.upToDate p.Name, []) ∧
    p ∉ (reconcileLoop fetch upsert prjs).2 := by
  constructor
  · simp [reconcileStep, hfetch, heq]
  · intro hcall
    obtain ⟨rem, hf, hd⟩ := mem_upsertCalls fetch upsert prjs p hcall
    rw [hfetch] at hf
    injection hf with hf
    rw [← hf] at hd
    rw [heq] at hd
    cases hd

/-- C6: when a project's fetch fails, the loop records a fetch-error outcome
for that project, performs no upsert during its iteration, and still
processes every subsequent project, each yielding its own terminal
outcome. -/
theorem reconcile_fetch_error_isolated (fetch : String → Except String Project)
    (upsert : Project → Except String Unit) (pre post : List Project)
    (p : Project) (e : String)
    (hfetch : fetch p.Name = Except.error e) :
    (reconcileLoop fetch upsert (pre ++ p :: post)).1 =
      (reconcileLoop fetch upsert pre).1 ++
        Outcome.fetchError p.Name e :: (reconcileLoop fetch upsert post).1 ∧
    (reconcileLoop fetch upsert (pre ++ p :: post)).2 =
      (reconcileLoop fetch upsert pre).2 ++
        (reconcileLoop fetch upsert post).2 ∧
    (reconcileLoop fetch upsert post).1.length = post.length := by
  have hstep : reconcileStep fetch upsert p = (Outcome.fetchError p.Name e, []) := by
    simp [reconcileStep, hfetch]
  have happ := reconcileLoop_append fetch upsert pre (p :: post)
  refine ⟨?_, ?_, ?_⟩
  · rw [congrArg Prod.fst happ]
    rw [reconcileLoop, hstep]
  · rw [congrArg Prod.snd happ]
    rw [reconcileLoop, hstep]
    simp
  · rw [reconcileLoop_outcomes_eq_map]
    exact List.length_map post _

/-- C8: the loop produces exactly one outcome per project — the outcome list
is the per-project step mapped over the manifest, has the manifest's length,
and the outcome at each index is for the project at that index — in
manifest order, with no reordering or batching. -/
theorem reconcile_outcomes_in_order (fetch : String → Except String Project)
    (upsert : Project → Except String Unit) (prjs : List Project) :
    (reconcileLoop fetch upsert prjs).1 =
      (prjs.map fun p => (reconcileStep fetch upsert p).1) ∧
    (reconcileLoop fetch upsert prjs).1.length = prjs.length ∧
    ∀ (i : Nat) (h : i < prjs.length)
      (h' : i < (reconcileLoop fetch upsert prjs).1.length),
      ((reconcileLoop fetch upsert prjs).1.get ⟨i, h'⟩).project =
        (prjs.get ⟨i, h⟩).Name := by
  refine ⟨reconcileLoop_outcomes_eq_map fetch upsert prjs, ?_, ?_⟩
  · rw [reconcileLoop_outcomes_eq_map]
    exact List.length_map prjs _
  · intro i h h'
    have hmap := reconcileLoop_outcomes_eq_map fetch upsert prjs
    revert h'
    rw [hmap]
    intro h'
    simp only [List.get_eq_getElem, List.getElem_map]
    exact reconcileStep_project fetch upsert _

/-! ### Concrete oracle functions (witness inputs) -/

/-- A remote that knows exactly the project `foo` with `projA`'s content. -/
def fetchA : String → Except String Project := fun n =>
  if n = "foo" then Except.ok projA else Except.error "project not found"

/-- A remote whose every fetch fails. -/
def fetchFail : String → Except String Project := fun _ =>
  Except.error "connection refused"

/-- An upsert that always succeeds. -/
def upsertOk : Project → Except String Unit := fun _ => Except.ok ()

/-- C5 witness: reconciling `projA` against a remote already holding `projA`
records "already up-to-date" and performs no upsert. -/
theorem reconcile_noop_witness :
    reconcileStep fetchA upsertOk projA = (Outcome.upToDate projA.Name, []) ∧
    projA ∉ (reconcileLoop fetchA upsertOk [projA]).2 :=
  reconcile_noop fetchA upsertOk [projA] projA projA (by simp) rfl (by decide)

/-- C6 witness: with every fetch failing, `projA`'s iteration records a
fetch error and the later project `projB` is still processed with its own
outcome. -/
theorem reconcile_fetch_error_isolated_witness :
    (reconcileLoop fetchFail upsertOk ([] ++ projA :: [projB])).1 =
      (reconcileLoop fetchFail upsertOk []).1 ++
        Outcome.fetchError projA.Name "connection refused" ::
          (reconcileLoop fetchFail upsertOk [projB]).1 ∧
    (reconcileLoop fetchFail upsertOk ([] ++ projA :: [projB])).2 =
      (reconcileLoop fetchFail upsertOk []).2 ++
        (reconcileLoop fetchFail upsertOk [projB]).2 ∧
    (reconcileLoop fetchFail upsertOk [projB]).1.length = [projB].length :=
  reconcile_fetch_error_isolated fetchFail upsertOk [] [projB] projA
    "connection refused" rfl

/-! ### Credentials (`GetOBSCredentials`)

The process environment is modelled as a partial map from variable names to
values; Go's `os.Getenv` returns `""` when the variable is absent. -/

/-- The credential record returned by `GetOBSCredentials`.  The `OBSClient`
handle built by the external `obs.New` call is not modelled; the code passes
it exactly the three values recorded here. -/
structure Info where
  Username : String
  Password : String
  APIURL : String
deriving DecidableEq, Repr

/-- The documented default for the `api-url` flag. -/
def DefaultAPIURL : String := "https://api.opensuse.org/"

/-- Go's `os.Getenv`: the variable's value, or `""` when it is absent. -/
def osGetenv (env : String → Option String) (key : String) : String :=
  (env key).getD ""

/-- `GetOBSCredentials` from `cmd/reconcile.go`: reads `OBS_USERNAME` and
`OBS_PASSWORD` via `os.Getenv`, errors when either is the empty string, and
otherwise returns the credentials with the given API URL. -/
def GetOBSCredentials (env : String → Option String) (apiURL : String) :
    Except String Info :=
  let username := osGetenv env "OBS_USERNAME"
  if username = "" then
    Except.error "OBS_USERNAME environment variable not set"
  else
    let password := osGetenv env "OBS_PASSWORD"
    if password = "" then
      Except.error "OBS_PASSWORD environment variable not set"
    else
      Except.ok { Username := username, Password := password, APIURL := apiURL }

theorem osGetenv_eq_empty_iff (env : String → Option String) (key : String) :
    osGetenv env key = "" ↔ env key = none ∨ env key = some "" := by
  cases h : env key with
  | none => simp [osGetenv, h]
  | some v => simp [osGetenv, h]

/-- C10: `GetOBSCredentials` returns an error iff `OBS_USERNAME` or
`OBS_PASSWORD` is absent or set to the empty string (a set-but-empty
variable is treated identically to an absent one), and when both are
non-empty the returned `Info` carries exactly those two values and the
given API URL. -/
theorem GetOBSCredentials_spec (env : String → Option String)
    (apiURL : String) :
    ((∃ e, GetOBSCredentials env apiURL = Except.error e) ↔
      (env "OBS_USERNAME" = none ∨ env "OBS_USERNAME" = some "" ∨
       env "OBS_PASSWORD" = none ∨ env "OBS_PASSWORD" = some "")) ∧
    (∀ u p : String, env "OBS_USERNAME" = some u → u ≠ "" →
      env "OBS_PASSWORD" = some p → p ≠ "" →
      GetOBSCredentials env apiURL = Except.ok ⟨u, p, apiURL⟩) := by
  constructor
  · by_cases hu : osGetenv env "OBS_USERNAME" = ""
    · have h1 := (osGetenv_eq_empty_iff env "OBS_USERNAME").mp hu
      constructor
      · intro _
        rcases h1 with h1 | h1
        · exact Or.inl h1
        · exact Or.inr (Or.inl h1)
      · intro _
        exact ⟨_, by rw [GetOBSCredentials]; rw [if_pos hu]⟩
    · by_cases hp : osGetenv env "OBS_PASSWORD" = ""
      · have h1 := (osGetenv_eq_empty_iff env "OBS_PASSWORD").mp hp
        constructor
        · intro _
          rcases h1 with h1 | h1
          · exact Or.inr (Or.inr (Or.inl h1))
          · exact Or.inr (Or.inr (Or.inr h1))
        · intro _
          exact ⟨_, by rw [GetOBSCredentials]; rw [if_neg hu, if_pos hp]⟩
      · constructor
        · rintro ⟨e, he⟩
          rw [GetOBSCredentials] at he
          rw [if_neg hu, if_neg hp] at he
          cases he
        · intro h
          exfalso
          rcases h with h | h | h | h
          · exact hu ((osGetenv_eq_empty_iff env "OBS_USERNAME").mpr (Or.inl h))
          · exact hu ((osGetenv_eq_empty_iff env "OBS_USERNAME").mpr (Or.inr h))
          · exact hp ((osGetenv_eq_empty_iff env "OBS_PASSWORD").mpr (Or.inl h))
          · exact hp ((osGetenv_eq_empty_iff env "OBS_PASSWORD").mpr (Or.inr h))
  · intro u p hu hune hp hpne
    have hgu : osGetenv env "OBS_USERNAME" = u := by simp [osGetenv, hu]
    have hgp : osGetenv env "OBS_PASSWORD" = p := by simp [osGetenv, hp]
    rw [GetOBSCredentials]
    rw [hgu, hgp, if_neg hune, if_neg hpne]

/-- An environment holding non-empty values for both credential variables. -/
def envOk : String → Option String := fun k =>
  if k = "OBS_USERNAME" then some "alice"
  else if k = "OBS_PASSWORD" then some "secret"
  else none

/-- C10 witness: with `OBS_USERNAME=alice` and `OBS_PASSWORD=secret` the
returned `Info` is exactly `(alice, secret, default API URL)`. -/
theorem GetOBSCredentials_spec_witness :
    GetOBSCredentials envOk DefaultAPIURL =
      Except.ok ⟨"alice", "secret", DefaultAPIURL⟩ :=
  (GetOBSCredentials_spec envOk DefaultAPIURL).2 "alice" "secret" rfl
    (by decide) rfl (by decide)

/-! ### The command surface and the process exit status

`Reconcile`'s `Run` closure (`cmd/reconcile.go` lines 50-88) calls
`log.Fatalf` when `GetOBSCredentials` fails (the process exits with status
1 before any reconciliation); when the manifest path does not exist or the
manifest fails to load it prints a message and returns.  The closure is a
cobra `Run` (not `RunE`) function: it returns no error, so on every path
that reaches it `rootCmd.Execute()` (`cmd/root.go`) returns no error and
`Execute` does not call `os.Exit(1)` — the process exit status is 0
regardless of the per-project outcomes.  `runCommand` records the exit
status together with the outcomes; the manifest argument is the already
parsed load result (`none` for a missing or unparsable manifest, whose
loading is out of scope). -/

def runCommand (env : String → Option String) (apiURL : String)
    (manifest : Option (List Project))
    (fetch : String → Except String Project)
    (upsert : Project → Except String Unit) : Nat × List Outcome :=
  match GetOBSCredentials env apiURL with
  | Except.error _ => (1, [])
  | Except.ok _ =>
    match manifest with
    | none => (0, [])
    | some prjs => (0, (reconcileLoop fetch upsert prjs).1)

/-- C7 counterexample: a run whose only project ends in a fetch error still
exits with status 0, not non-zero. -/
theorem runCommand_exit_zero_despite_error :
    (runCommand envOk DefaultAPIURL (some [projA]) fetchFail upsertOk).2 =
      [Outcome.fetchError "foo" "connection refused"] ∧
    (runCommand envOk DefaultAPIURL (some [projA]) fetchFail upsertOk).1 = 0 := by
  constructor <;> rfl

/-- C7 (amended): the exit status does not reflect per-project errors — it
is 1 exactly when credential lookup fails, and 0 on every run that gets
past it, regardless of fetch or upsert errors among the outcomes. -/
theorem runCommand_exit_status (env : String → Option String)
    (apiURL : String) (manifest : Option (List Project))
    (fetch : String → Except String Project)
    (upsert : Project → Except String Unit) :
    (runCommand env apiURL manifest fetch upsert).1 =
      match GetOBSCredentials env apiURL with
      | Except.error _ => 1
      | Except.ok _ => 0 := by
  cases hc : GetOBSCredentials env apiURL with
  | error e => simp [runCommand, hc]
  | ok info => cases manifest <;> simp [runCommand, hc]

end Obscli
